import Mathlib

/-!
Verification development for the sequencer core: shallow embeddings of the
block builder (`block_builder.rs`), the entry-point execution driver
(`entry_point_execution.rs`), the stateful-compression alias updater
(`stateful_compression.rs`), the executable-transaction helpers
(`executable_transaction.rs`) and the batcher height state machine, together
with theorems settling the specification claims about them.
-/

/-- Decidable equality for `Except`, used to evaluate the embeddings on
concrete inputs. -/
instance {ε α : Type} [DecidableEq ε] [DecidableEq α] : DecidableEq (Except ε α) := fun
  | .ok a, .ok b =>
    decidable_of_iff (a = b) ⟨fun h => by rw [h], fun h => by cases h; rfl⟩
  | .ok _, .error _ => isFalse (fun h => by cases h)
  | .error _, .ok _ => isFalse (fun h => by cases h)
  | .error a, .error b =>
    decidable_of_iff (a = b) ⟨fun h => by rw [h], fun h => by cases h; rfl⟩

namespace BlockBuilder

/-- A transaction (`starknet_api::executable_transaction::Transaction`),
abstracted to its hash, which is all the block builder reads from it. -/
structure Tx where
  txHash : Nat
deriving DecidableEq, Repr

/-- `TransactionExecutionInfo`, abstracted to an opaque value. -/
abbrev Info := Nat

/-- `TransactionExecutorError` from the blockifier: the `BlockFull` variant is
matched by name in the builder; every other variant is handled uniformly and
is abstracted to a numeric code. -/
inductive TransactionExecutorError where
  | blockFull
  | other (code : Nat)
deriving DecidableEq, Repr

/-- `FailOnErrorCause` (block_builder.rs). -/
inductive FailOnErrorCause where
  | blockFull
  | deadlineReached
  | transactionFailed (e : TransactionExecutorError)
deriving DecidableEq, Repr

/-- `BlockBuilderError` (block_builder.rs). The `StreamTransactionsError`
variant arises only when the unbounded output channel's receiver is dropped;
the channel is modelled as open, so sends always succeed. -/
inductive BlockBuilderError where
  | failOnError (c : FailOnErrorCause)
  | aborted
  | getTransactionError (code : Nat)
  | executorError (e : TransactionExecutorError)
deriving DecidableEq, Repr

/-- An `IndexMap::insert`: an existing key keeps its position and receives the
new value; a fresh key is appended at the end. -/
def indexMapInsert (m : List (Nat × Info)) (k : Nat) (v : Info) :
    List (Nat × Info) :=
  if m.any (fun p => p.1 = k) then
    m.map (fun p => if p.1 = k then (k, v) else p)
  else m ++ [(k, v)]

/-- The state mutated by `collect_execution_results_and_stream_txs`: the
insertion-ordered `execution_infos` map, and the transactions sent so far on
the output channel (the observable effect of `output_content_sender.send`). -/
structure CollectState where
  executionInfos : List (Nat × Info)
  streamed : List Tx
deriving DecidableEq, Repr

/-- The loop body of `collect_execution_results_and_stream_txs`, iterating
over the zipped `(input_tx, result)` pairs. -/
def collectGo (hasOutputSender failOnErr : Bool) :
    List (Tx × Except TransactionExecutorError Info) → CollectState →
    Except BlockBuilderError (Bool × CollectState)
  | [], s => .ok (false, s)
  | (inputTx, result) :: rest, s =>
    match result with
    | .ok txExecutionInfo =>
      let s' : CollectState :=
        { executionInfos := indexMapInsert s.executionInfos inputTx.txHash txExecutionInfo
          streamed := if hasOutputSender then s.streamed ++ [inputTx] else s.streamed }
      collectGo hasOutputSender failOnErr rest s'
    | .error .blockFull =>
      if failOnErr then .error (.failOnError .blockFull)
      else .ok (true, s)
    | .error (.other e) =>
      if failOnErr then
        .error (.failOnError (.transactionFailed (.other e)))
      else collectGo hasOutputSender failOnErr rest s

/-- `collect_execution_results_and_stream_txs` (block_builder.rs): zips the
transaction chunk with the executor results and processes each pair; returns
`true` iff the block is full and should be closed. -/
def collect_execution_results_and_stream_txs
    (txChunk : List Tx) (results : List (Except TransactionExecutorError Info))
    (s : CollectState) (hasOutputSender failOnErr : Bool) :
    Except BlockBuilderError (Bool × CollectState) :=
  collectGo hasOutputSender failOnErr (txChunk.zip results) s

/-- `NextTxs` (transaction_provider.rs): a chunk of transactions or the end of
the stream. -/
inductive NextTxs where
  | txs (l : List Tx)
  | end_
deriving DecidableEq, Repr

/-- The environment observed by one iteration of the `build_block` loop:
whether the deadline has passed, whether the abort signal fired, what the
provider returned, and the results the executor produces for the chunk. -/
structure IterInput where
  deadlineReached : Bool
  abortSignalled : Bool
  providerResult : Except Nat NextTxs
  executorResults : List (Except TransactionExecutorError Info)
deriving DecidableEq, Repr

/-- The `while !block_is_full` loop of `build_block`, driven by a finite
schedule of per-iteration environments; `none` means the schedule ran out
before the loop exited (a non-terminating prefix of a real run). -/
def buildBlockLoop (hasOutputSender failOnErr : Bool) :
    List IterInput → CollectState → Option (Except BlockBuilderError CollectState)
  | [], _ => none
  | i :: rest, s =>
    if i.deadlineReached then
      if failOnErr then some (.error (.failOnError .deadlineReached))
      else some (.ok s)
    else if i.abortSignalled then
      some (.error .aborted)
    else
      match i.providerResult with
      | .error e => some (.error (.getTransactionError e))
      | .ok .end_ => some (.ok s)
      | .ok (.txs nextTxChunk) =>
        if nextTxChunk.isEmpty then
          buildBlockLoop hasOutputSender failOnErr rest s
        else
          match collect_execution_results_and_stream_txs nextTxChunk
              i.executorResults s hasOutputSender failOnErr with
          | .error e => some (.error e)
          | .ok (true, s') => some (.ok s')
          | .ok (false, s') => buildBlockLoop hasOutputSender failOnErr rest s'

/-- `BlockExecutionArtifacts` (block_builder.rs); the data of `close_block`
(commitment state diff, visited segments, bouncer weights) is abstracted to
an opaque value. -/
structure BlockExecutionArtifacts where
  executionInfos : List (Nat × Info)
  closeData : Nat
deriving DecidableEq, Repr

/-- `build_block` (block_builder.rs): run the loop from the empty state, then
call `close_block` and assemble the artifacts. The returned pair also carries
the list of transactions that were streamed to the output channel. -/
def build_block (hasOutputSender failOnErr : Bool) (schedule : List IterInput)
    (closeResult : Except TransactionExecutorError Nat) :
    Option (Except BlockBuilderError (BlockExecutionArtifacts × List Tx)) :=
  match buildBlockLoop hasOutputSender failOnErr schedule ⟨[], []⟩ with
  | none => none
  | some (.error e) => some (.error e)
  | some (.ok s) =>
    match closeResult with
    | .error e => some (.error (.executorError e))
    | .ok closeData =>
      some (.ok ({ executionInfos := s.executionInfos, closeData := closeData }, s.streamed))

/-- The accepted `(transaction, info)` pairs of one chunk: the pairs consumed
with an `Ok` result before the iteration stops (at a `BlockFull` result, or at
any error when `fail_on_err` is set). -/
def acceptedInChunk (failOnErr : Bool) :
    List (Tx × Except TransactionExecutorError Info) → List (Tx × Info)
  | [] => []
  | (tx, .ok info) :: rest => (tx, info) :: acceptedInChunk failOnErr rest
  | (_, .error .blockFull) :: _ => []
  | (_, .error (.other _)) :: rest =>
    if failOnErr then [] else acceptedInChunk failOnErr rest

/-- Whether iterating over the chunk reaches a `BlockFull` result (the value
returned by the collect loop when it does not error). -/
def chunkFull (failOnErr : Bool) :
    List (Tx × Except TransactionExecutorError Info) → Bool
  | [] => false
  | (_, .ok _) :: rest => chunkFull failOnErr rest
  | (_, .error .blockFull) :: _ => true
  | (_, .error (.other _)) :: rest =>
    if failOnErr then false else chunkFull failOnErr rest

/-- The accepted `(transaction, info)` pairs of a whole run, in the order the
provider delivered them: chunks are consumed until the deadline, an abort, a
provider error, `End`, or a chunk that fills the block. -/
def acceptedInRun (failOnErr : Bool) : List IterInput → List (Tx × Info)
  | [] => []
  | i :: rest =>
    if i.deadlineReached then []
    else if i.abortSignalled then []
    else
      match i.providerResult with
      | .error _ => []
      | .ok .end_ => []
      | .ok (.txs chunk) =>
        if chunk.isEmpty then acceptedInRun failOnErr rest
        else
          let pairs := chunk.zip i.executorResults
          acceptedInChunk failOnErr pairs ++
            (if chunkFull failOnErr pairs then [] else acceptedInRun failOnErr rest)

end BlockBuilder

namespace EntryPoint

/-- The STARK field prime, `2^251 + 17 * 2^192 + 1`. -/
def PRIME : Nat := 2 ^ 251 + 17 * 2 ^ 192 + 1

/-- `u64::MAX + 1`. -/
def U64_LIMIT : Nat := 2 ^ 64

/-- A field element, canonically a natural number below `PRIME`. -/
abbrev Felt := Nat

/-- `MaybeRelocatable` of the VM: a field element or a segment address
(`segment_index` is an `isize`, the offset a `usize`). -/
inductive MaybeRelocatable where
  | int (v : Felt)
  | rel (segment : Int) (offset : Nat)
deriving DecidableEq, Repr

/-- `TrackedResource` (execution/contract_class.rs). -/
inductive TrackedResource where
  | cairoSteps
  | sierraGas
deriving DecidableEq, Repr

/-- `PostExecutionError`, restricted to the variants reachable from
`get_call_result`; the message carried by `MalformedReturnData` is dropped. -/
inductive PostExecutionError where
  | malformedReturnData
  | mathError
  | memoryError
deriving DecidableEq, Repr

/-- `CallResult` (entry_point_execution.rs). -/
structure CallResult where
  failed : Bool
  retdata : List Felt
  gas_consumed : Nat
deriving DecidableEq, Repr

/-- `gas_consumed_without_inner_calls` (entry_point_execution.rs): the inner
calls are abstracted to their `execution.gas_consumed` u64 values; the u64
summation wraps modulo `2^64`, and the `expect` on `checked_sub`'s underflow
(a fatal invariant violation) is modelled as `none`. -/
def gas_consumed_without_inner_calls (tracked_resource : TrackedResource)
    (gas_consumed : Nat) (inner_calls : List Nat) : Option Nat :=
  match tracked_resource with
  | .cairoSteps => some 0
  | .sierraGas =>
    let innerSum := inner_calls.sum % U64_LIMIT
    if innerSum ≤ gas_consumed then some (gas_consumed - innerSum) else none

/-- The loop of `register_visited_pcs` over the relocated trace entries
(abstracted to their `pc` values): a `pc < 1` is an internal error;
otherwise `real_pc = pc - 1` is inserted into the set when it lies inside
the bytecode. -/
def registerVisitedPcsGo (bytecode_length : Nat) :
    List Nat → Finset Nat → Except Unit (Finset Nat)
  | [], class_visited_pcs => .ok class_visited_pcs
  | pc :: rest, class_visited_pcs =>
    if pc < 1 then .error ()
    else
      registerVisitedPcsGo bytecode_length rest
        (if pc - 1 < bytecode_length then insert (pc - 1) class_visited_pcs
         else class_visited_pcs)

/-- `register_visited_pcs` (entry_point_execution.rs): collects the visited
PCs from the relocated trace, returning the set submitted to the state via
`add_visited_pcs`. -/
def register_visited_pcs (relocated_trace : List Nat) (bytecode_length : Nat) :
    Except Unit (Finset Nat) :=
  registerVisitedPcsGo bytecode_length relocated_trace ∅

/-- A VM memory write log over `(segment, offset)` addresses; later writes
shadow earlier ones. -/
abbrev MemLog := List ((Int × Nat) × MaybeRelocatable)

/-- A single memory cell insert. -/
def memWrite (m : MemLog) (addr : Int × Nat) (v : MaybeRelocatable) : MemLog :=
  (addr, v) :: m

/-- Read a memory cell: the most recent write at the address. -/
def memRead (m : MemLog) (addr : Int × Nat) : Option MaybeRelocatable :=
  (m.find? (fun e => e.1 = addr)).map Prod.snd

/-- `load_data`: writes the data words at consecutive offsets of a segment. -/
def loadData (m : MemLog) (segment : Int) : Nat → List MaybeRelocatable → MemLog
  | _, [] => m
  | off, v :: rest => loadData (memWrite m (segment, off) v) segment (off + 1) rest

/-- The slice of the VM state that `prepare_program_extra_data` touches:
the next fresh segment index, the memory, and the segments recorded in
`ReadOnlySegments`. -/
structure VmState where
  nextSegment : Int
  mem : MemLog
  readOnlySegments : List Int

/-- `add_memory_segment`: returns the base of a fresh segment. -/
def addSegment (vm : VmState) : (Int × Nat) × VmState :=
  ((vm.nextSegment, 0), { vm with nextSegment := vm.nextSegment + 1 })

/-- `ReadOnlySegments::allocate`: adds a fresh segment, loads the data at its
base and records it as read-only; returns the base. -/
def allocateReadOnly (vm : VmState) (data : List MaybeRelocatable) :
    (Int × Nat) × VmState :=
  let (base, vm') := addSegment vm
  (base,
    { vm' with
      mem := loadData vm'.mem base.1 base.2 data
      readOnlySegments := vm'.readOnlySegments ++ [base.1] })

/-- The six base gas costs read by `prepare_program_extra_data` from
`GasCosts` (versioned_constants.rs), as u64 values. -/
structure GasCostsBase where
  pedersen_gas_cost : Nat
  bitwise_builtin_gas_cost : Nat
  ecop_gas_cost : Nat
  poseidon_gas_cost : Nat
  add_mod_gas_cost : Nat
  mul_mod_gas_cost : Nat

/-- `prepare_program_extra_data` (entry_point_execution.rs): allocates the
read-only builtin cost segment holding the six costs in canonical order,
writes a `ret` opcode followed by a pointer to that segment right after the
program bytecode (at `get_pc() + bytecode_length`), and returns
`program_extra_data_length = 2`. Returns the new VM state, the length, and
the cost segment base. -/
def prepare_program_extra_data (vm : VmState) (pc : Int × Nat)
    (bytecode_length : Nat) (gas_costs : GasCostsBase) :
    VmState × Nat × (Int × Nat) :=
  let builtin_price_array : List Nat :=
    [gas_costs.pedersen_gas_cost, gas_costs.bitwise_builtin_gas_cost,
     gas_costs.ecop_gas_cost, gas_costs.poseidon_gas_cost,
     gas_costs.add_mod_gas_cost, gas_costs.mul_mod_gas_cost]
  let data := builtin_price_array.map (fun x => MaybeRelocatable.int (x % PRIME))
  let (builtin_cost_segment_start, vm1) := allocateReadOnly vm data
  let ptr : Int × Nat := (pc.1, pc.2 + bytecode_length)
  -- Push a `ret` opcode (write_felt advances the pointer by one word).
  let vm2 := { vm1 with mem := memWrite vm1.mem ptr (.int 0x208b7fff7fff7ffe) }
  -- Push a pointer to the builtin cost segment.
  let vm3 := { vm2 with
    mem := memWrite vm2.mem (ptr.1, ptr.2 + 1)
      (.rel builtin_cost_segment_start.1 builtin_cost_segment_start.2) }
  let program_extra_data_length := 2
  (vm3, program_extra_data_length, builtin_cost_segment_start)

/-- Modelled from the spec: `MaybeRelocatable::sub` of the external VM (§6):
int − int is field subtraction, rel − int subtracts from the offset,
rel − rel within one segment is the offset difference, and the remaining
combinations (or an underflow) are math errors. -/
def MaybeRelocatable.sub (a b : MaybeRelocatable) :
    Except PostExecutionError MaybeRelocatable :=
  match a, b with
  | .int x, .int y => .ok (.int ((x + (PRIME - y % PRIME)) % PRIME))
  | .rel s o, .int v => if v ≤ o then .ok (.rel s (o - v)) else .error .mathError
  | .rel s o, .rel s' o' =>
    if s = s' then
      if o' ≤ o then .ok (.int (o - o')) else .error .mathError
    else .error .mathError
  | .int _, .rel _ _ => .error .mathError

/-- Reads `n` consecutive memory cells of a segment as field elements;
a missing or relocatable cell is a memory error. -/
def readFelts (mem : Int → Nat → Option MaybeRelocatable) (segment : Int) :
    Nat → Nat → Except PostExecutionError (List Felt)
  | _, 0 => .ok []
  | off, n + 1 =>
    match mem segment off with
    | some (.int v) =>
      match readFelts mem segment (off + 1) n with
      | .ok rest => .ok (v :: rest)
      | .error e => .error e
    | _ => .error .memoryError

/-- Modelled from the spec: `read_execution_retdata` (execution_utils.rs is
not among the sources) — `retdata` is the felts in
`[retdata_start, retdata_end)`, i.e. `size` consecutive felts from
`retdata_start`; a non-integer size or a non-address start is an error. -/
def read_execution_retdata (mem : Int → Nat → Option MaybeRelocatable)
    (size : MaybeRelocatable) (start_ptr : MaybeRelocatable) :
    Except PostExecutionError (List Felt) :=
  match size with
  | .rel _ _ => .error .malformedReturnData
  | .int n =>
    match start_ptr with
    | .int _ => .error .memoryError
    | .rel segment off => readFelts mem segment off n

/-- `get_call_result` (entry_point_execution.rs): reads the last 5 return
values `[gas, _, failure_flag, retdata_start, retdata_end]` (passed here as
the five arguments); the failure flag must be exactly 0 or 1, the remaining
gas must be an integer representable as u64 and at most
`call.initial_gas`, and the retdata is read from
`[retdata_start, retdata_end)`. -/
def get_call_result (mem : Int → Nat → Option MaybeRelocatable)
    (gas0 _v1 failure_flag retdata_start retdata_end : MaybeRelocatable)
    (initial_gas : Nat) (tracked_resource : TrackedResource) :
    Except PostExecutionError CallResult :=
  match
    (if failure_flag = .int 0 then .ok false
     else if failure_flag = .int 1 then .ok true
     else .error .malformedReturnData :
      Except PostExecutionError Bool) with
  | .error e => .error e
  | .ok failed =>
    match MaybeRelocatable.sub retdata_end retdata_start with
    | .error e => .error e
    | .ok retdata_size =>
      match gas0 with
      | .rel _ _ => .error .malformedReturnData
      | .int gasFelt =>
        -- `gas.to_u64()`
        if gasFelt < U64_LIMIT then
          if gasFelt > initial_gas then .error .malformedReturnData
          else
            let gas_consumed :=
              match tracked_resource with
              | .cairoSteps => 0
              | .sierraGas => initial_gas - gasFelt
            match read_execution_retdata mem retdata_size retdata_start with
            | .error e => .error e
            | .ok retdata =>
              .ok { failed := failed, retdata := retdata, gas_consumed := gas_consumed }
        else .error .malformedReturnData

end EntryPoint

namespace Batcher

/-- The `BatcherError` variants exercised by `start_height`
(batcher_test.rs). -/
inductive BatcherError where
  | heightAlreadyPassed (storage_height requested_height : Nat)
  | storageNotSynced (storage_height requested_height : Nat)
  | heightInProgress
deriving DecidableEq, Repr

/-- Modelled from the spec: the batcher facade's height state (batcher.rs is
not among the sources; §4.4 and batcher_test.rs fix the behavior of
`start_height`): the storage height and the currently active height. -/
structure BatcherState where
  storageHeight : Nat
  activeHeight : Option Nat
deriving DecidableEq, Repr

/-- Modelled from the spec: `start_height` (§4.4) — `Idle → Active(h)`,
failing with `HeightAlreadyPassed` when `h < storage_height`,
`StorageNotSynced` when `h > storage_height`, and `HeightInProgress` when a
height is already active. -/
def start_height (s : BatcherState) (height : Nat) :
    Except BatcherError BatcherState :=
  if s.activeHeight.isSome then .error .heightInProgress
  else if height < s.storageHeight then
    .error (.heightAlreadyPassed s.storageHeight height)
  else if s.storageHeight < height then
    .error (.storageNotSynced s.storageHeight height)
  else .ok { s with activeHeight := some height }

end Batcher

namespace StatefulCompression

/-- `INITIAL_AVAILABLE_ALIAS = 0x80` (stateful_compression.rs). -/
def INITIAL_AVAILABLE_ALIAS : Nat := 0x80

/-- `ALIAS_CONTRACT_ADDRESS = 2`. -/
def ALIAS_CONTRACT_ADDRESS : Nat := 2

/-- `ALIAS_COUNTER_STORAGE_KEY = 0`. -/
def ALIAS_COUNTER_STORAGE_KEY : Nat := 0

/-- `MIN_VALUE_FOR_ALIAS_ALLOC = INITIAL_AVAILABLE_ALIAS`. -/
def MIN_VALUE_FOR_ALIAS_ALLOC : Nat := INITIAL_AVAILABLE_ALIAS

/-- A `HashMap` insert over an association list: an existing key receives
the new value, a fresh key is appended. -/
def aliasMapInsert (m : List (Nat × Nat)) (k v : Nat) : List (Nat × Nat) :=
  if m.any (fun p => p.1 = k) then
    m.map (fun p => if p.1 = k then (k, v) else p)
  else m ++ [(k, v)]

/-- `AliasUpdater` (stateful_compression.rs): the base state is abstracted
to the reader of the alias contract's storage (`get_storage_at` at
`ALIAS_CONTRACT_ADDRESS`, assumed error-free); storage keys and felts are
naturals below the field prime. -/
structure AliasUpdater where
  storage : Nat → Nat
  new_aliases : List (Nat × Nat)
  next_free_alias : Option Nat

/-- `AliasUpdater::new`: reads the stored alias counter; a zero counter
means no alias was ever allocated. -/
def AliasUpdater.new (storage : Nat → Nat) : AliasUpdater :=
  let stored_counter := storage ALIAS_COUNTER_STORAGE_KEY
  { storage := storage
    new_aliases := []
    next_free_alias := if stored_counter = 0 then none else some stored_counter }

/-- `AliasUpdater::insert_alias`: allocates the next free alias for a key
that is at least `MIN_VALUE_FOR_ALIAS_ALLOC`, has no alias stored in the
contract, and is not already pending in `new_aliases`. -/
def insert_alias (u : AliasUpdater) (alias_key : Nat) : AliasUpdater :=
  if MIN_VALUE_FOR_ALIAS_ALLOC ≤ alias_key
      ∧ u.storage alias_key = 0
      ∧ u.new_aliases.any (fun p => p.1 = alias_key) = false then
    let alias_to_allocate :=
      match u.next_free_alias with
      | some a => a
      | none => INITIAL_AVAILABLE_ALIAS
    { u with
      new_aliases := aliasMapInsert u.new_aliases alias_key alias_to_allocate
      next_free_alias := some ((alias_to_allocate + 1) % EntryPoint.PRIME) }
  else u

/-- `AliasUpdater::finalize_updates`: inserts the alias counter (when its
stored value was zero, or when at least one alias is pending) and returns
the storage updates keyed by `(ALIAS_CONTRACT_ADDRESS, key)`. -/
def finalize_updates (u : AliasUpdater) : List ((Nat × Nat) × Nat) :=
  let m :=
    match u.next_free_alias with
    | none => aliasMapInsert u.new_aliases ALIAS_COUNTER_STORAGE_KEY INITIAL_AVAILABLE_ALIAS
    | some a =>
      if u.new_aliases.isEmpty then u.new_aliases
      else aliasMapInsert u.new_aliases ALIAS_COUNTER_STORAGE_KEY a
  m.map (fun p => ((ALIAS_CONTRACT_ADDRESS, p.1), p.2))

/-- A sequence of `insert_alias` calls, in order. -/
def runInserts (u : AliasUpdater) (keys : List Nat) : AliasUpdater :=
  keys.foldl insert_alias u

/-- The first alias a fresh updater over this storage would allocate: the
stored counter, or `INITIAL_AVAILABLE_ALIAS` when the counter is zero. -/
def startAlias (storage : Nat → Nat) : Nat :=
  if storage ALIAS_COUNTER_STORAGE_KEY = 0 then INITIAL_AVAILABLE_ALIAS
  else storage ALIAS_COUNTER_STORAGE_KEY

end StatefulCompression

namespace ExecutableTransaction

/-- `L1HandlerTransaction` (executable_transaction.rs), abstracted to the
field `payload_size` reads: the inner transaction's calldata. -/
structure L1HandlerTransaction where
  calldata : List Nat
deriving DecidableEq, Repr

/-- `payload_size` (executable_transaction.rs): `calldata.len() - 1` — the
`from` field is excluded; the usize subtraction's underflow panic on empty
calldata is modelled as `none`. -/
def payload_size (tx : L1HandlerTransaction) : Option Nat :=
  if tx.calldata.length = 0 then none else some (tx.calldata.length - 1)

end ExecutableTransaction

namespace BlockBuilder

theorem indexMapInsert_of_fresh (m : List (Nat × Info)) (k : Nat) (v : Info)
    (h : k ∉ m.map Prod.fst) : indexMapInsert m k v = m ++ [(k, v)] := by
  unfold indexMapInsert
  have hany : m.any (fun p => p.1 = k) = false := by
    rw [List.any_eq_false]
    intro x hx
    simp only [decide_eq_true_eq]
    intro hk
    exact h (hk ▸ List.mem_map_of_mem Prod.fst hx)
  simp [hany]

theorem collectGo_ok (ho f : Bool)
    (pairs : List (Tx × Except TransactionExecutorError Info)) :
    ∀ (s : CollectState) (b : Bool) (s' : CollectState),
    collectGo ho f pairs s = .ok (b, s') →
    b = chunkFull f pairs ∧
    s'.streamed = s.streamed ++
      (if ho then (acceptedInChunk f pairs).map Prod.fst else []) ∧
    s'.executionInfos = (acceptedInChunk f pairs).foldl
      (fun m p => indexMapInsert m p.1.txHash p.2) s.executionInfos := by
  induction pairs with
  | nil =>
    intro s b s' h
    simp only [collectGo, Except.ok.injEq, Prod.mk.injEq] at h
    obtain ⟨hb, hs'⟩ := h
    subst hb; subst hs'
    simp [chunkFull, acceptedInChunk]
  | cons p rest ih =>
    obtain ⟨tx, res⟩ := p
    intro s b s' h
    cases res with
    | ok info =>
      simp only [collectGo] at h
      obtain ⟨h1, h2, h3⟩ := ih _ b s' h
      refine ⟨by simpa [chunkFull] using h1, ?_, ?_⟩
      · rw [h2]
        cases ho <;> simp [acceptedInChunk]
      · rw [h3]
        simp [acceptedInChunk]
    | error e =>
      cases e with
      | blockFull =>
        cases f with
        | true => simp [collectGo] at h
        | false =>
          simp only [collectGo, Bool.false_eq_true, if_false, Except.ok.injEq,
            Prod.mk.injEq] at h
          obtain ⟨hb, hs'⟩ := h
          subst hb; subst hs'
          simp [chunkFull, acceptedInChunk]
      | other code =>
        cases f with
        | true => simp [collectGo] at h
        | false =>
          simp only [collectGo, Bool.false_eq_true, if_false] at h
          obtain ⟨h1, h2, h3⟩ := ih _ b s' h
          exact ⟨by simpa [chunkFull] using h1, by simpa [acceptedInChunk] using h2,
            by simpa [acceptedInChunk] using h3⟩

theorem buildBlockLoop_ok (ho f : Bool) (schedule : List IterInput) :
    ∀ (s s' : CollectState),
    buildBlockLoop ho f schedule s = some (.ok s') →
    s'.streamed = s.streamed ++
      (if ho then (acceptedInRun f schedule).map Prod.fst else []) ∧
    s'.executionInfos = (acceptedInRun f schedule).foldl
      (fun m p => indexMapInsert m p.1.txHash p.2) s.executionInfos := by
  induction schedule with
  | nil => intro s s' h; simp [buildBlockLoop] at h
  | cons i rest ih =>
    intro s s' h
    cases hd : i.deadlineReached with
    | true =>
      cases f with
      | true => simp [buildBlockLoop, hd] at h
      | false =>
        simp only [buildBlockLoop, hd, if_true, Bool.false_eq_true, if_false,
          Option.some.injEq, Except.ok.injEq] at h
        subst h
        simp [acceptedInRun, hd]
    | false =>
      cases ha : i.abortSignalled with
      | true => simp [buildBlockLoop, hd, ha] at h
      | false =>
        cases hp : i.providerResult with
        | error e => simp [buildBlockLoop, hd, ha, hp] at h
        | ok nxt =>
          cases nxt with
          | end_ =>
            simp only [buildBlockLoop, hd, ha, hp, Bool.false_eq_true, if_false,
              Option.some.injEq, Except.ok.injEq] at h
            subst h
            simp [acceptedInRun, hd, ha, hp]
          | txs chunk =>
            cases hc : chunk.isEmpty with
            | true =>
              simp only [buildBlockLoop, hd, ha, hp, hc, Bool.false_eq_true,
                if_false, if_true] at h
              have := ih s s' h
              simpa [acceptedInRun, hd, ha, hp, hc] using this
            | false =>
              simp only [buildBlockLoop, hd, ha, hp, hc, Bool.false_eq_true,
                if_false] at h
              cases hcoll : collect_execution_results_and_stream_txs chunk
                  i.executorResults s ho f with
              | error e => rw [hcoll] at h; simp at h
              | ok bs =>
                obtain ⟨b, s1⟩ := bs
                rw [hcoll] at h
                have hgo := collectGo_ok ho f (chunk.zip i.executorResults) s b s1 hcoll
                obtain ⟨hb, hstr, hinfo⟩ := hgo
                cases b with
                | true =>
                  simp only [Option.some.injEq, Except.ok.injEq] at h
                  subst h
                  refine ⟨?_, ?_⟩
                  · rw [hstr]
                    simp [acceptedInRun, hd, ha, hp, hc, ← hb]
                  · rw [hinfo]
                    simp [acceptedInRun, hd, ha, hp, hc, ← hb]
                | false =>
                  simp only at h
                  obtain ⟨hstr', hinfo'⟩ := ih s1 s' h
                  refine ⟨?_, ?_⟩
                  · rw [hstr', hstr]
                    cases ho <;> simp [acceptedInRun, hd, ha, hp, hc, ← hb]
                  · rw [hinfo', hinfo]
                    simp [acceptedInRun, hd, ha, hp, hc, ← hb, List.foldl_append]

theorem foldl_indexMapInsert_fresh (pairs : List (Tx × Info)) :
    ∀ (m : List (Nat × Info)),
    (pairs.map (fun p => p.1.txHash)).Nodup →
    (∀ k ∈ pairs.map (fun p => p.1.txHash), k ∉ m.map Prod.fst) →
    pairs.foldl (fun m p => indexMapInsert m p.1.txHash p.2) m
      = m ++ pairs.map (fun p => (p.1.txHash, p.2)) := by
  induction pairs with
  | nil => intro m _ _; simp
  | cons p rest ih =>
    intro m hnd hfresh
    obtain ⟨tx, v⟩ := p
    simp only [List.map_cons, List.nodup_cons] at hnd
    simp only [List.foldl_cons]
    rw [indexMapInsert_of_fresh m tx.txHash v (hfresh tx.txHash (by simp))]
    rw [ih (m ++ [(tx.txHash, v)]) hnd.2 ?_]
    · simp
    · intro k hk
      simp only [List.map_append, List.map_cons, List.map_nil, List.mem_append,
        List.mem_singleton]
      rintro (hkm | hkk)
      · exact hfresh k (by simp [hk]) hkm
      · exact hnd.1 (hkk ▸ hk)

/-- C1: in `collect_execution_results_and_stream_txs`, an `Err(BlockFull)`
result yields `FailOnError(BlockFull)` when `fail_on_err` is set, and
otherwise marks the block full: the remaining results of the chunk are not
consumed, the state is returned unchanged, and in the `build_block` loop the
block-full outcome exits to finalization without error. Any other `Err`
yields `FailOnError(TransactionFailed(e))` when `fail_on_err` is set, and is
otherwise silently dropped: the transaction is neither added to
`execution_infos` nor streamed, and processing continues with the rest of
the chunk. -/
theorem c1_error_result_handling
    (tx : Tx) (txs : List Tx)
    (rs : List (Except TransactionExecutorError Info))
    (s : CollectState) (ho : Bool) (e : Nat) :
    (collect_execution_results_and_stream_txs (tx :: txs)
        (.error .blockFull :: rs) s ho true
      = .error (.failOnError .blockFull))
    ∧ (collect_execution_results_and_stream_txs (tx :: txs)
        (.error .blockFull :: rs) s ho false
      = .ok (true, s))
    ∧ (collect_execution_results_and_stream_txs (tx :: txs)
        (.error (.other e) :: rs) s ho true
      = .error (.failOnError (.transactionFailed (.other e))))
    ∧ (collect_execution_results_and_stream_txs (tx :: txs)
        (.error (.other e) :: rs) s ho false
      = collect_execution_results_and_stream_txs txs rs s ho false)
    ∧ (∀ (i : IterInput) (restIter : List IterInput) (chunk : List Tx)
        (s' : CollectState),
        i.deadlineReached = false → i.abortSignalled = false →
        i.providerResult = .ok (.txs chunk) → chunk.isEmpty = false →
        collect_execution_results_and_stream_txs chunk i.executorResults s ho false
          = .ok (true, s') →
        buildBlockLoop ho false (i :: restIter) s = some (.ok s')) := by
  refine ⟨rfl, rfl, rfl, rfl, ?_⟩
  intro i restIter chunk s' hd ha hp hc hcoll
  simp [buildBlockLoop, hd, ha, hp, hc, hcoll]

/-- Witness for C1: applies the theorem to a chunk whose second result is
`BlockFull` with `fail_on_err = false`; the loop finalizes without error,
keeping only the first transaction. -/
theorem c1_error_result_handling_witness :
    buildBlockLoop true false
      [⟨false, false, .ok (.txs [⟨1⟩, ⟨2⟩]), [.ok 5, .error .blockFull]⟩]
      ⟨[], []⟩
      = some (.ok ⟨[(1, 5)], [⟨1⟩]⟩) :=
  (c1_error_result_handling ⟨1⟩ [] [] ⟨[], []⟩ true 0).2.2.2.2
    ⟨false, false, .ok (.txs [⟨1⟩, ⟨2⟩]), [.ok 5, .error .blockFull]⟩ [] [⟨1⟩, ⟨2⟩]
    ⟨[(1, 5)], [⟨1⟩]⟩ rfl rfl rfl rfl (by decide)

/-- C2: every run of `build_block` that returns `Ok` records the accepted
transactions in `execution_infos` in exactly the order the provider delivered
them, and streams to the output channel exactly the accepted transactions in
that same order (each exactly once). Stated under distinctness of the
accepted transactions' hashes, as `IndexMap::insert` deduplicates keys. -/
theorem c2_build_block_ordering
    (failOnErr : Bool) (schedule : List IterInput)
    (closeResult : Except TransactionExecutorError Nat)
    (arts : BlockExecutionArtifacts) (streamed : List Tx)
    (hrun : build_block true failOnErr schedule closeResult
      = some (.ok (arts, streamed)))
    (hnd : ((acceptedInRun failOnErr schedule).map (fun p => p.1.txHash)).Nodup) :
    streamed = (acceptedInRun failOnErr schedule).map Prod.fst ∧
    arts.executionInfos
      = (acceptedInRun failOnErr schedule).map (fun p => (p.1.txHash, p.2)) ∧
    arts.executionInfos.map Prod.fst
      = (acceptedInRun failOnErr schedule).map (fun p => p.1.txHash) := by
  unfold build_block at hrun
  cases hloop : buildBlockLoop true failOnErr schedule ⟨[], []⟩ with
  | none => rw [hloop] at hrun; simp at hrun
  | some r =>
    rw [hloop] at hrun
    cases r with
    | error e => simp at hrun
    | ok s =>
      cases closeResult with
      | error e => simp at hrun
      | ok d =>
        simp only [Option.some.injEq, Except.ok.injEq, Prod.mk.injEq] at hrun
        obtain ⟨harts, hstreamed⟩ := hrun
        obtain ⟨hstr, hinfo⟩ := buildBlockLoop_ok true failOnErr schedule ⟨[], []⟩ s hloop
        have hfold := foldl_indexMapInsert_fresh (acceptedInRun failOnErr schedule)
          [] hnd (by simp)
        subst harts
        subst hstreamed
        refine ⟨by simpa using hstr, ?_, ?_⟩
        · simpa [hfold] using hinfo
        · rw [show s.executionInfos
            = (acceptedInRun failOnErr schedule).map (fun p => (p.1.txHash, p.2))
            by simpa [hfold] using hinfo]
          simp [List.map_map]

/-- Witness for C2: a run accepting two transactions across one chunk;
the streamed output and the `execution_infos` keys both follow the
provider order. -/
theorem c2_build_block_ordering_witness :
    ([⟨1⟩, ⟨2⟩] : List Tx)
      = (acceptedInRun false
          [⟨false, false, .ok (.txs [⟨1⟩, ⟨2⟩]), [.ok 10, .ok 20]⟩,
           ⟨false, false, .ok .end_, []⟩]).map Prod.fst ∧
    (⟨[(1, 10), (2, 20)], 0⟩ : BlockExecutionArtifacts).executionInfos
      = (acceptedInRun false
          [⟨false, false, .ok (.txs [⟨1⟩, ⟨2⟩]), [.ok 10, .ok 20]⟩,
           ⟨false, false, .ok .end_, []⟩]).map (fun p => (p.1.txHash, p.2)) ∧
    (⟨[(1, 10), (2, 20)], 0⟩ : BlockExecutionArtifacts).executionInfos.map Prod.fst
      = (acceptedInRun false
          [⟨false, false, .ok (.txs [⟨1⟩, ⟨2⟩]), [.ok 10, .ok 20]⟩,
           ⟨false, false, .ok .end_, []⟩]).map (fun p => p.1.txHash) :=
  c2_build_block_ordering false
    [⟨false, false, .ok (.txs [⟨1⟩, ⟨2⟩]), [.ok 10, .ok 20]⟩,
     ⟨false, false, .ok .end_, []⟩]
    (.ok 0) ⟨[(1, 10), (2, 20)], 0⟩ [⟨1⟩, ⟨2⟩] (by decide) (by decide)

end BlockBuilder

namespace EntryPoint

/-- C4: `gas_consumed_without_inner_calls` returns 0 under `CairoSteps`;
under `SierraGas` it returns `g − Σ inner` when the sum does not exceed `g`
(so the result plus the sum equals `g`), and panics (`none`) when the sum
exceeds `g`. Stated for u64-representable sums, where the wrapped and
mathematical sums coincide. -/
theorem c4_gas_consumed_without_inner_calls
    (g : Nat) (inner : List Nat) (hsum : inner.sum < U64_LIMIT) :
    gas_consumed_without_inner_calls .cairoSteps g inner = some 0 ∧
    (inner.sum ≤ g →
      gas_consumed_without_inner_calls .sierraGas g inner = some (g - inner.sum) ∧
      (g - inner.sum) + inner.sum = g) ∧
    (g < inner.sum →
      gas_consumed_without_inner_calls .sierraGas g inner = none) := by
  refine ⟨rfl, ?_, ?_⟩
  · intro hle
    constructor
    · simp [gas_consumed_without_inner_calls, Nat.mod_eq_of_lt hsum, hle]
    · omega
  · intro hlt
    simp [gas_consumed_without_inner_calls, Nat.mod_eq_of_lt hsum,
      Nat.not_le.mpr hlt]

/-- Witness for C4: both `SierraGas` branches and the `CairoSteps` branch at
concrete values. -/
theorem c4_gas_consumed_without_inner_calls_witness :
    gas_consumed_without_inner_calls .cairoSteps 10 [3, 4] = some 0 ∧
    gas_consumed_without_inner_calls .sierraGas 10 [3, 4] = some (10 - [3, 4].sum) ∧
    (10 - [3, 4].sum) + [3, 4].sum = 10 ∧
    gas_consumed_without_inner_calls .sierraGas 2 [3, 4] = none :=
  ⟨(c4_gas_consumed_without_inner_calls 10 [3, 4] (by decide)).1,
   ((c4_gas_consumed_without_inner_calls 10 [3, 4] (by decide)).2.1 (by decide)).1,
   ((c4_gas_consumed_without_inner_calls 10 [3, 4] (by decide)).2.1 (by decide)).2,
   (c4_gas_consumed_without_inner_calls 2 [3, 4] (by decide)).2.2 (by decide)⟩

theorem registerVisitedPcsGo_ok_mem (bytecode_length : Nat) (trace : List Nat) :
    ∀ (acc s : Finset Nat),
    registerVisitedPcsGo bytecode_length trace acc = .ok s →
    ∀ x, x ∈ s ↔ x ∈ acc ∨
      ∃ pc ∈ trace, 1 ≤ pc ∧ pc - 1 < bytecode_length ∧ x = pc - 1 := by
  induction trace with
  | nil =>
    intro acc s h x
    simp only [registerVisitedPcsGo, Except.ok.injEq] at h
    subst h
    simp
  | cons pc rest ih =>
    intro acc s h x
    by_cases hpc : pc < 1
    · simp [registerVisitedPcsGo, hpc] at h
    · simp only [registerVisitedPcsGo, if_neg hpc] at h
      rw [ih _ s h x]
      by_cases hlt : pc - 1 < bytecode_length
      · simp only [if_pos hlt, Finset.mem_insert, List.mem_cons]
        constructor
        · rintro ((hx | hx) | ⟨pc', hpc', h1, h2, h3⟩)
          · exact Or.inr ⟨pc, Or.inl rfl, by omega, hlt, hx⟩
          · exact Or.inl hx
          · exact Or.inr ⟨pc', Or.inr hpc', h1, h2, h3⟩
        · rintro (hx | ⟨pc', (rfl | hpc'), h1, h2, h3⟩)
          · exact Or.inl (Or.inr hx)
          · exact Or.inl (Or.inl h3)
          · exact Or.inr ⟨pc', hpc', h1, h2, h3⟩
      · simp only [if_neg hlt, List.mem_cons]
        constructor
        · rintro (hx | ⟨pc', hpc', h1, h2, h3⟩)
          · exact Or.inl hx
          · exact Or.inr ⟨pc', Or.inr hpc', h1, h2, h3⟩
        · rintro (hx | ⟨pc', (rfl | hpc'), h1, h2, h3⟩)
          · exact Or.inl hx
          · exact absurd h2 hlt
          · exact Or.inr ⟨pc', hpc', h1, h2, h3⟩

/-- C5: a successful `register_visited_pcs` registers exactly the values
`pc − 1` of the relocated trace entries with `pc ≥ 1` whose `pc − 1` is
below the bytecode length; in particular every registered element lies in
`[0, bytecode_length)`. -/
theorem c5_register_visited_pcs (trace : List Nat) (bytecode_length : Nat)
    (s : Finset Nat)
    (h : register_visited_pcs trace bytecode_length = .ok s) :
    (∀ x, x ∈ s ↔
      ∃ pc ∈ trace, 1 ≤ pc ∧ pc - 1 < bytecode_length ∧ x = pc - 1) ∧
    (∀ x ∈ s, x < bytecode_length) := by
  have hmem := registerVisitedPcsGo_ok_mem bytecode_length trace ∅ s h
  constructor
  · intro x
    rw [hmem x]
    simp
  · intro x hx
    rcases (hmem x).1 hx with hx' | ⟨pc, _, _, hlt, heq⟩
    · simp at hx'
    · omega

/-- C3: `get_call_result` reads the last five return values; it fails with
`MalformedReturnData` unless the failure flag (position 2) is exactly 0 or 1
and the remaining gas (position 0) is an integer at most
`call.initial_gas`; when these hold, `failed` is `flag == 1` and the
retdata is the felts in `[retdata_start, retdata_end)`. -/
theorem c3_get_call_result
    (mem : Int → Nat → Option MaybeRelocatable)
    (gas0 v1 flag rstart rend : MaybeRelocatable)
    (initial_gas : Nat) (tr : TrackedResource)
    (hig : initial_gas < U64_LIMIT) :
    (flag ≠ .int 0 → flag ≠ .int 1 →
      get_call_result mem gas0 v1 flag rstart rend initial_gas tr
        = .error .malformedReturnData) ∧
    (∀ sz : MaybeRelocatable, (flag = .int 0 ∨ flag = .int 1) →
      MaybeRelocatable.sub rend rstart = .ok sz →
      (∀ (seg : Int) (off : Nat), gas0 = .rel seg off →
        get_call_result mem gas0 v1 flag rstart rend initial_gas tr
          = .error .malformedReturnData) ∧
      (∀ g : Nat, gas0 = .int g → initial_gas < g →
        get_call_result mem gas0 v1 flag rstart rend initial_gas tr
          = .error .malformedReturnData)) ∧
    (∀ (fb : Bool) (sz : MaybeRelocatable) (g : Nat) (l : List Felt),
      flag = .int (if fb then 1 else 0) →
      MaybeRelocatable.sub rend rstart = .ok sz →
      gas0 = .int g → g ≤ initial_gas →
      read_execution_retdata mem sz rstart = .ok l →
      get_call_result mem gas0 v1 flag rstart rend initial_gas tr
        = .ok { failed := fb, retdata := l,
                gas_consumed :=
                  match tr with
                  | .cairoSteps => 0
                  | .sierraGas => initial_gas - g }) := by
  refine ⟨?_, ?_, ?_⟩
  · intro h0 h1
    simp [get_call_result, h0, h1]
  · intro sz hflag hsub
    constructor
    · intro seg off hg
      subst hg
      rcases hflag with h | h <;> subst h <;> simp [get_call_result, hsub]
    · intro g hg hgt
      subst hg
      have h64 : ¬ (g < U64_LIMIT) ∨ g > initial_gas := by
        by_cases h : g < U64_LIMIT
        · exact Or.inr hgt
        · exact Or.inl h
      rcases hflag with h | h <;> subst h <;>
        rcases h64 with h64 | h64 <;>
          simp [get_call_result, hsub, h64, hgt]
  · intro fb sz g l hflag hsub hg hle hread
    subst hflag
    subst hg
    have h64 : g < U64_LIMIT := Nat.lt_of_le_of_lt hle hig
    cases fb <;>
      cases tr <;>
        simp [get_call_result, hsub, hread, h64, Nat.not_lt.mpr hle]

/-- Witness for C3: a successful extraction — flag 1, remaining gas 3 of an
initial 10, retdata `[7, 8]` read from segment 4 — and tracked Sierra gas,
consuming 7. -/
theorem c3_get_call_result_witness :
    get_call_result
      (fun s o => if s = 4 ∧ o < 2 then some (.int (o + 7)) else none)
      (.int 3) (.int 0) (.int 1) (.rel 4 0) (.rel 4 2) 10 .sierraGas
      = .ok { failed := true, retdata := [7, 8], gas_consumed := 7 } :=
  (c3_get_call_result
      (fun s o => if s = 4 ∧ o < 2 then some (.int (o + 7)) else none)
      (.int 3) (.int 0) (.int 1) (.rel 4 0) (.rel 4 2) 10 .sierraGas
      (by decide)).2.2 true (.int 2) 3 [7, 8] rfl (by decide) rfl (by decide) (by decide)

theorem memRead_memWrite (m : MemLog) (a : Int × Nat) (v : MaybeRelocatable)
    (b : Int × Nat) :
    memRead (memWrite m a v) b = if a = b then some v else memRead m b := by
  by_cases h : a = b
  · subst h
    simp [memRead, memWrite, List.find?_cons]
  · simp [memRead, memWrite, List.find?_cons, h]

theorem memRead_none_of_fresh (m : MemLog) (segment : Int) (off : Nat)
    (h : ∀ e ∈ m, e.1.1 ≠ segment) : memRead m (segment, off) = none := by
  unfold memRead
  have : m.find? (fun e => e.1 = (segment, off)) = none := by
    rw [List.find?_eq_none]
    intro x hx
    simp only [decide_eq_true_eq]
    intro heq
    exact h x hx (by rw [heq])
  rw [this]
  rfl

/-- C6: `prepare_program_extra_data` writes exactly 2 words after the
bytecode — the return opcode `0x208b7fff7fff7ffe` followed by a pointer to
the builtin cost segment — and returns `program_extra_data_length = 2`; the
cost segment is a fresh read-only segment holding exactly the 6 gas costs in
the order pedersen, bitwise, ec_op, poseidon, add_mod, mul_mod. -/
theorem c6_prepare_program_extra_data
    (vm : VmState) (pc : Int × Nat) (bytecode_length : Nat) (gc : GasCostsBase)
    (hpc : pc.1 ≠ vm.nextSegment)
    (hwf : ∀ e ∈ vm.mem, e.1.1 ≠ vm.nextSegment) :
    (prepare_program_extra_data vm pc bytecode_length gc).2.1 = 2 ∧
    (prepare_program_extra_data vm pc bytecode_length gc).2.2
      = (vm.nextSegment, 0) ∧
    memRead (prepare_program_extra_data vm pc bytecode_length gc).1.mem
      (pc.1, pc.2 + bytecode_length) = some (.int 0x208b7fff7fff7ffe) ∧
    memRead (prepare_program_extra_data vm pc bytecode_length gc).1.mem
      (pc.1, pc.2 + bytecode_length + 1) = some (.rel vm.nextSegment 0) ∧
    vm.nextSegment ∈
      (prepare_program_extra_data vm pc bytecode_length gc).1.readOnlySegments ∧
    memRead (prepare_program_extra_data vm pc bytecode_length gc).1.mem
      (vm.nextSegment, 0) = some (.int (gc.pedersen_gas_cost % PRIME)) ∧
    memRead (prepare_program_extra_data vm pc bytecode_length gc).1.mem
      (vm.nextSegment, 1) = some (.int (gc.bitwise_builtin_gas_cost % PRIME)) ∧
    memRead (prepare_program_extra_data vm pc bytecode_length gc).1.mem
      (vm.nextSegment, 2) = some (.int (gc.ecop_gas_cost % PRIME)) ∧
    memRead (prepare_program_extra_data vm pc bytecode_length gc).1.mem
      (vm.nextSegment, 3) = some (.int (gc.poseidon_gas_cost % PRIME)) ∧
    memRead (prepare_program_extra_data vm pc bytecode_length gc).1.mem
      (vm.nextSegment, 4) = some (.int (gc.add_mod_gas_cost % PRIME)) ∧
    memRead (prepare_program_extra_data vm pc bytecode_length gc).1.mem
      (vm.nextSegment, 5) = some (.int (gc.mul_mod_gas_cost % PRIME)) ∧
    (∀ j, 6 ≤ j →
      memRead (prepare_program_extra_data vm pc bytecode_length gc).1.mem
        (vm.nextSegment, j) = none) := by
  have hne : ∀ (x y : Nat), ¬ ((pc.1, x) = (vm.nextSegment, y)) :=
    fun x y h => hpc (congrArg Prod.fst h)
  simp only [prepare_program_extra_data, allocateReadOnly, addSegment,
    List.map_cons, List.map_nil, loadData]
  refine ⟨trivial, trivial, ?_, ?_, by simp, ?_, ?_, ?_, ?_, ?_, ?_, ?_⟩
  · rw [memRead_memWrite,
      if_neg (fun h => by have := congrArg Prod.snd h; omega),
      memRead_memWrite, if_pos rfl]
  · rw [memRead_memWrite, if_pos rfl]
  · rw [memRead_memWrite, if_neg (hne _ _), memRead_memWrite, if_neg (hne _ _),
      memRead_memWrite, if_neg (by simp), memRead_memWrite, if_neg (by simp),
      memRead_memWrite, if_neg (by simp), memRead_memWrite, if_neg (by simp),
      memRead_memWrite, if_neg (by simp), memRead_memWrite, if_pos rfl]
  · rw [memRead_memWrite, if_neg (hne _ _), memRead_memWrite, if_neg (hne _ _),
      memRead_memWrite, if_neg (by simp), memRead_memWrite, if_neg (by simp),
      memRead_memWrite, if_neg (by simp), memRead_memWrite, if_neg (by simp),
      memRead_memWrite, if_pos rfl]
  · rw [memRead_memWrite, if_neg (hne _ _), memRead_memWrite, if_neg (hne _ _),
      memRead_memWrite, if_neg (by simp), memRead_memWrite, if_neg (by simp),
      memRead_memWrite, if_neg (by simp), memRead_memWrite, if_pos rfl]
  · rw [memRead_memWrite, if_neg (hne _ _), memRead_memWrite, if_neg (hne _ _),
      memRead_memWrite, if_neg (by simp), memRead_memWrite, if_neg (by simp),
      memRead_memWrite, if_pos rfl]
  · rw [memRead_memWrite, if_neg (hne _ _), memRead_memWrite, if_neg (hne _ _),
      memRead_memWrite, if_neg (by simp), memRead_memWrite, if_pos rfl]
  · rw [memRead_memWrite, if_neg (hne _ _), memRead_memWrite, if_neg (hne _ _),
      memRead_memWrite, if_pos rfl]
  · intro j hj
    rw [memRead_memWrite, if_neg (hne _ _), memRead_memWrite, if_neg (hne _ _),
      memRead_memWrite,
      if_neg (fun h => by have := congrArg Prod.snd h; omega),
      memRead_memWrite,
      if_neg (fun h => by have := congrArg Prod.snd h; omega),
      memRead_memWrite,
      if_neg (fun h => by have := congrArg Prod.snd h; omega),
      memRead_memWrite,
      if_neg (fun h => by have := congrArg Prod.snd h; omega),
      memRead_memWrite,
      if_neg (fun h => by have := congrArg Prod.snd h; omega),
      memRead_memWrite,
      if_neg (fun h => by have := congrArg Prod.snd h; omega)]
    exact memRead_none_of_fresh vm.mem vm.nextSegment j hwf

/-- Witness for C6: a VM with three prior segments and empty memory, program
at segment 0 with 4 bytecode words and gas costs 1..6. -/
theorem c6_prepare_program_extra_data_witness :
    (prepare_program_extra_data ⟨3, [], []⟩ (0, 0) 4 ⟨1, 2, 3, 4, 5, 6⟩).2.1 = 2 ∧
    memRead (prepare_program_extra_data ⟨3, [], []⟩ (0, 0) 4 ⟨1, 2, 3, 4, 5, 6⟩).1.mem
      (0, 0 + 4) = some (.int 0x208b7fff7fff7ffe) ∧
    memRead (prepare_program_extra_data ⟨3, [], []⟩ (0, 0) 4 ⟨1, 2, 3, 4, 5, 6⟩).1.mem
      (3, 0) = some (.int (1 % PRIME)) ∧
    memRead (prepare_program_extra_data ⟨3, [], []⟩ (0, 0) 4 ⟨1, 2, 3, 4, 5, 6⟩).1.mem
      (3, 6) = none :=
  ⟨(c6_prepare_program_extra_data ⟨3, [], []⟩ (0, 0) 4 ⟨1, 2, 3, 4, 5, 6⟩
      (by decide) (by simp)).1,
   (c6_prepare_program_extra_data ⟨3, [], []⟩ (0, 0) 4 ⟨1, 2, 3, 4, 5, 6⟩
      (by decide) (by simp)).2.2.1,
   (c6_prepare_program_extra_data ⟨3, [], []⟩ (0, 0) 4 ⟨1, 2, 3, 4, 5, 6⟩
      (by decide) (by simp)).2.2.2.2.2.1,
   (c6_prepare_program_extra_data ⟨3, [], []⟩ (0, 0) 4 ⟨1, 2, 3, 4, 5, 6⟩
      (by decide) (by simp)).2.2.2.2.2.2.2.2.2.2.2 6 (by decide)⟩

/-- Witness for C5: trace `[1, 2, 5, 9]` over bytecode of length 3 registers
exactly `{0, 1}`; the element 1 is in the set and inside the bytecode. -/
theorem c5_register_visited_pcs_witness :
    (1 ∈ ({0, 1} : Finset Nat) ↔
      ∃ pc ∈ [1, 2, 5, 9], 1 ≤ pc ∧ pc - 1 < 3 ∧ 1 = pc - 1) ∧
    (1 ∈ ({0, 1} : Finset Nat) → 1 < 3) :=
  ⟨(c5_register_visited_pcs [1, 2, 5, 9] 3 {0, 1} (by decide)).1 1,
   fun hx => (c5_register_visited_pcs [1, 2, 5, 9] 3 {0, 1} (by decide)).2 1 hx⟩

end EntryPoint

namespace Batcher

/-- C7: `start_height` from the idle state fails with `HeightAlreadyPassed`
below the storage height and `StorageNotSynced` above it, succeeds exactly
at the storage height, and any second `start_height` while a height is
active fails with `HeightInProgress`. -/
theorem c7_start_height_transitions (s : BatcherState) (h : Nat)
    (hidle : s.activeHeight = none) :
    (h < s.storageHeight →
      start_height s h = .error (.heightAlreadyPassed s.storageHeight h)) ∧
    (s.storageHeight < h →
      start_height s h = .error (.storageNotSynced s.storageHeight h)) ∧
    (h = s.storageHeight →
      start_height s h = .ok { s with activeHeight := some h }) ∧
    (∀ (h2 : Nat) (s' : BatcherState), start_height s h = .ok s' →
      start_height s' h2 = .error .heightInProgress) := by
  refine ⟨?_, ?_, ?_, ?_⟩
  · intro hlt
    simp [start_height, hidle, hlt]
  · intro hgt
    simp [start_height, hidle, Nat.not_lt.mpr (Nat.le_of_lt hgt), hgt]
  · intro heq
    subst heq
    simp [start_height, hidle]
  · intro h2 s' hok
    simp only [start_height, hidle, Option.isSome_none, Bool.false_eq_true,
      if_false] at hok
    split at hok
    · exact absurd hok (by simp)
    · split at hok
      · exact absurd hok (by simp)
      · simp only [Except.ok.injEq] at hok
        subst hok
        simp [start_height]

/-- Witness for C7: a batcher at storage height 5 rejects heights 4 and 6,
accepts 5, and rejects a repeated `start_height`. -/
theorem c7_start_height_transitions_witness :
    start_height ⟨5, none⟩ 4 = .error (.heightAlreadyPassed 5 4) ∧
    start_height ⟨5, none⟩ 6 = .error (.storageNotSynced 5 6) ∧
    start_height ⟨5, none⟩ 5 = .ok ⟨5, some 5⟩ ∧
    start_height ⟨5, some 5⟩ 5 = .error .heightInProgress :=
  ⟨(c7_start_height_transitions ⟨5, none⟩ 4 rfl).1 (by decide),
   (c7_start_height_transitions ⟨5, none⟩ 6 rfl).2.1 (by decide),
   (c7_start_height_transitions ⟨5, none⟩ 5 rfl).2.2.1 rfl,
   (c7_start_height_transitions ⟨5, none⟩ 5 rfl).2.2.2 5 ⟨5, some 5⟩ (by decide)⟩

end Batcher

namespace ExecutableTransaction

/-- C10: `payload_size` returns `calldata.len() − 1` for non-empty calldata
(the `from` field is excluded) and panics on empty calldata, making
non-empty calldata a precondition of this public method. -/
theorem c10_payload_size (tx : L1HandlerTransaction) :
    (tx.calldata ≠ [] → payload_size tx = some (tx.calldata.length - 1)) ∧
    (tx.calldata = [] → payload_size tx = none) := by
  constructor
  · intro h
    unfold payload_size
    rw [if_neg (by simpa using h)]
  · intro h
    simp [payload_size, h]

/-- Witness for C10: a three-word calldata has payload size 2; empty
calldata panics. -/
theorem c10_payload_size_witness :
    payload_size ⟨[1, 2, 3]⟩ = some 2 ∧ payload_size ⟨[]⟩ = none :=
  ⟨(c10_payload_size ⟨[1, 2, 3]⟩).1 (by decide),
   (c10_payload_size ⟨[]⟩).2 rfl⟩

end ExecutableTransaction

namespace StatefulCompression

theorem aliasMapInsert_of_fresh (m : List (Nat × Nat)) (k v : Nat)
    (h : m.any (fun p => p.1 = k) = false) :
    aliasMapInsert m k v = m ++ [(k, v)] := by
  simp [aliasMapInsert, h]

theorem runInserts_inv (storage : Nat → Nat) (keys : List Nat) :
    ∀ (u : AliasUpdater) (n : Nat),
    u.storage = storage →
    u.new_aliases.map Prod.snd = List.range' (startAlias storage) n →
    (∀ p ∈ u.new_aliases, MIN_VALUE_FOR_ALIAS_ALLOC ≤ p.1) →
    u.next_free_alias = (if n = 0 then
        (if storage ALIAS_COUNTER_STORAGE_KEY = 0 then none
         else some (startAlias storage))
      else some (startAlias storage + n)) →
    startAlias storage + n + keys.length < EntryPoint.PRIME →
    ∃ n', n ≤ n' ∧
      (runInserts u keys).storage = storage ∧
      (runInserts u keys).new_aliases.map Prod.snd
        = List.range' (startAlias storage) n' ∧
      (∀ p ∈ (runInserts u keys).new_aliases, MIN_VALUE_FOR_ALIAS_ALLOC ≤ p.1) ∧
      (runInserts u keys).next_free_alias = (if n' = 0 then
          (if storage ALIAS_COUNTER_STORAGE_KEY = 0 then none
           else some (startAlias storage))
        else some (startAlias storage + n')) ∧
      startAlias storage + n' ≤ startAlias storage + n + keys.length := by
  induction keys with
  | nil =>
    intro u n hstor hmap hge hfree _
    exact ⟨n, Nat.le_refl n, hstor, hmap, hge, hfree, by simp⟩
  | cons k rest ih =>
    intro u n hstor hmap hge hfree hbudget
    by_cases hc : MIN_VALUE_FOR_ALIAS_ALLOC ≤ k
        ∧ u.storage k = 0
        ∧ u.new_aliases.any (fun p => p.1 = k) = false
    · have halloc :
          (match u.next_free_alias with
           | some a => a
           | none => INITIAL_AVAILABLE_ALIAS) = startAlias storage + n := by
        rw [hfree]
        by_cases hn : n = 0
        · subst hn
          by_cases h0 : storage ALIAS_COUNTER_STORAGE_KEY = 0
          · simp [h0, startAlias, INITIAL_AVAILABLE_ALIAS]
          · simp [h0, startAlias]
        · simp [hn]
      have hlt1 : startAlias storage + n + 1 < EntryPoint.PRIME := by
        simp only [List.length_cons] at hbudget
        omega
      have hins : insert_alias u k =
          { u with
            new_aliases := u.new_aliases ++ [(k, startAlias storage + n)]
            next_free_alias := some (startAlias storage + n + 1) } := by
        unfold insert_alias
        rw [if_pos hc, halloc]
        simp only [aliasMapInsert_of_fresh _ _ _ hc.2.2, Nat.mod_eq_of_lt hlt1]
      have hrun : runInserts u (k :: rest) = runInserts (insert_alias u k) rest := rfl
      rw [hrun, hins]
      obtain ⟨n', hn', h1, h2, h3, h4, h5⟩ :=
        ih { u with
              new_aliases := u.new_aliases ++ [(k, startAlias storage + n)]
              next_free_alias := some (startAlias storage + n + 1) }
          (n + 1) hstor
          (by simp [hmap, List.range'_1_concat])
          (by
            intro p hp
            rcases List.mem_append.1 hp with hp | hp
            · exact hge p hp
            · simp only [List.mem_singleton] at hp
              subst hp
              exact hc.1)
          (by
            rw [if_neg (Nat.succ_ne_zero n)]
            show some (startAlias storage + n + 1)
              = some (startAlias storage + (n + 1))
            exact congrArg some (by omega))
          (by simp only [List.length_cons] at hbudget; omega)
      exact ⟨n', by omega, h1, h2, h3, h4, by
        simp only [List.length_cons]
        omega⟩
    · have hins : insert_alias u k = u := by
        unfold insert_alias
        rw [if_neg hc]
      have hrun : runInserts u (k :: rest) = runInserts (insert_alias u k) rest := rfl
      rw [hrun, hins]
      obtain ⟨n', hn', h1, h2, h3, h4, h5⟩ :=
        ih u n hstor hmap hge hfree
          (by simp only [List.length_cons] at hbudget; omega)
      exact ⟨n', hn', h1, h2, h3, h4, by
        simp only [List.length_cons]
        omega⟩

/-- C9: the `AliasUpdater` invariants — `insert_alias` allocates only for a
key at least `0x80` that has no alias stored in the alias contract and none
pending in the batch; successive allocations receive consecutive alias
values starting from the stored counter (or from `0x80` when the stored
counter is zero); `finalize_updates` writes the alias-counter storage key
exactly when the stored counter was zero or at least one alias was
allocated. Stated with the counter plus the number of calls below the field
prime, so the felt increments do not wrap. -/
theorem c9_alias_updater (storage : Nat → Nat) (keys : List Nat)
    (hbudget : startAlias storage + keys.length < EntryPoint.PRIME) :
    (∀ (u : AliasUpdater) (k : Nat),
      (insert_alias u k).new_aliases ≠ u.new_aliases →
      MIN_VALUE_FOR_ALIAS_ALLOC ≤ k ∧ u.storage k = 0 ∧
        u.new_aliases.any (fun p => p.1 = k) = false) ∧
    ((runInserts (AliasUpdater.new storage) keys).new_aliases.map Prod.snd
      = List.range' (startAlias storage)
          ((runInserts (AliasUpdater.new storage) keys).new_aliases.length)) ∧
    (((finalize_updates (runInserts (AliasUpdater.new storage) keys)).any
        (fun e => e.1.2 = ALIAS_COUNTER_STORAGE_KEY)) = true
      ↔ (storage ALIAS_COUNTER_STORAGE_KEY = 0
          ∨ (runInserts (AliasUpdater.new storage) keys).new_aliases ≠ [])) := by
  obtain ⟨n', -, hstor, hmap, hge, hfree, -⟩ :=
    runInserts_inv storage keys (AliasUpdater.new storage) 0 rfl
      (by simp [AliasUpdater.new])
      (by simp [AliasUpdater.new])
      (by
        by_cases h0 : storage ALIAS_COUNTER_STORAGE_KEY = 0
        · simp [AliasUpdater.new, h0]
        · simp [AliasUpdater.new, h0, startAlias])
      (by simpa using hbudget)
  refine ⟨?_, ?_, ?_⟩
  · intro u k hne
    by_cases hc : MIN_VALUE_FOR_ALIAS_ALLOC ≤ k
        ∧ u.storage k = 0
        ∧ u.new_aliases.any (fun p => p.1 = k) = false
    · exact hc
    · exact absurd (by unfold insert_alias; rw [if_neg hc]) hne
  · have hlen : (runInserts (AliasUpdater.new storage) keys).new_aliases.length
        = n' := by
      have := congrArg List.length hmap
      simpa using this
    rw [hlen]
    exact hmap
  · by_cases hn : n' = 0
    · subst hn
      have hnil : (runInserts (AliasUpdater.new storage) keys).new_aliases = [] := by
        have h := hmap
        simp only [List.range'_zero] at h
        exact List.map_eq_nil_iff.mp h
      by_cases h0 : storage ALIAS_COUNTER_STORAGE_KEY = 0
      · have hfn : (runInserts (AliasUpdater.new storage) keys).next_free_alias
            = none := by simpa [h0] using hfree
        constructor
        · intro _
          exact Or.inl h0
        · intro _
          unfold finalize_updates
          rw [hfn, hnil]
          simp [aliasMapInsert]
      · have hfs : (runInserts (AliasUpdater.new storage) keys).next_free_alias
            = some (startAlias storage) := by simpa [h0] using hfree
        have hempty : finalize_updates (runInserts (AliasUpdater.new storage) keys)
            = [] := by
          unfold finalize_updates
          rw [hfs, hnil]
          simp
        rw [hempty]
        simp [h0, hnil]
    · have hnonnil : (runInserts (AliasUpdater.new storage) keys).new_aliases ≠ [] := by
        intro h
        rw [h] at hmap
        simp only [List.map_nil] at hmap
        exact hn (List.range'_eq_nil.mp hmap.symm)
      obtain ⟨a, l, hR⟩ : ∃ a l,
          (runInserts (AliasUpdater.new storage) keys).new_aliases = a :: l := by
        cases h : (runInserts (AliasUpdater.new storage) keys).new_aliases with
        | nil => exact absurd h hnonnil
        | cons a l => exact ⟨a, l, rfl⟩
      have hfs : (runInserts (AliasUpdater.new storage) keys).next_free_alias
          = some (startAlias storage + n') := by simpa [hn] using hfree
      have hfresh0 : ((a :: l).any
          (fun p => p.1 = ALIAS_COUNTER_STORAGE_KEY)) = false := by
        rw [List.any_eq_false]
        intro p hp
        have := hge p (hR ▸ hp)
        simp only [decide_eq_true_eq]
        simp only [MIN_VALUE_FOR_ALIAS_ALLOC, INITIAL_AVAILABLE_ALIAS] at this
        simp only [ALIAS_COUNTER_STORAGE_KEY]
        omega
      have hm : finalize_updates (runInserts (AliasUpdater.new storage) keys)
          = ((a :: l) ++ [(ALIAS_COUNTER_STORAGE_KEY, startAlias storage + n')]).map
              (fun p => ((ALIAS_CONTRACT_ADDRESS, p.1), p.2)) := by
        unfold finalize_updates
        rw [hfs, hR]
        simp only [List.isEmpty_cons, Bool.false_eq_true, if_false]
        rw [aliasMapInsert_of_fresh _ _ _ hfresh0]
      rw [hm]
      constructor
      · intro _
        exact Or.inr hnonnil
      · intro _
        simp [List.any_append]

/-- Witness for C9: storage with a zero counter and key `0x200` already
aliased; the calls `[0x100, 0x50, 0x200, 0x101, 0x100]` allocate `0x80` and
`0x81` for `0x100` and `0x101` only, and the counter key is written. -/
theorem c9_alias_updater_witness :
    (MIN_VALUE_FOR_ALIAS_ALLOC ≤ 0x100 ∧
      (AliasUpdater.new (fun k => if k = 0x200 then 5 else 0)).storage 0x100 = 0 ∧
      (AliasUpdater.new (fun k => if k = 0x200 then 5 else 0)).new_aliases.any
        (fun p => p.1 = 0x100) = false) ∧
    ((runInserts (AliasUpdater.new (fun k => if k = 0x200 then 5 else 0))
        [0x100, 0x50, 0x200, 0x101, 0x100]).new_aliases.map Prod.snd
      = List.range' (startAlias (fun k => if k = 0x200 then 5 else 0))
          ((runInserts (AliasUpdater.new (fun k => if k = 0x200 then 5 else 0))
            [0x100, 0x50, 0x200, 0x101, 0x100]).new_aliases.length)) ∧
    (((finalize_updates (runInserts
          (AliasUpdater.new (fun k => if k = 0x200 then 5 else 0))
          [0x100, 0x50, 0x200, 0x101, 0x100])).any
        (fun e => e.1.2 = ALIAS_COUNTER_STORAGE_KEY)) = true
      ↔ ((fun k => if k = 0x200 then 5 else 0) ALIAS_COUNTER_STORAGE_KEY = 0
          ∨ (runInserts (AliasUpdater.new (fun k => if k = 0x200 then 5 else 0))
              [0x100, 0x50, 0x200, 0x101, 0x100]).new_aliases ≠ [])) :=
  ⟨(c9_alias_updater (fun k => if k = 0x200 then 5 else 0)
      [0x100, 0x50, 0x200, 0x101, 0x100] (by decide)).1
      (AliasUpdater.new (fun k => if k = 0x200 then 5 else 0)) 0x100 (by decide),
   (c9_alias_updater (fun k => if k = 0x200 then 5 else 0)
      [0x100, 0x50, 0x200, 0x101, 0x100] (by decide)).2.1,
   (c9_alias_updater (fun k => if k = 0x200 then 5 else 0)
      [0x100, 0x50, 0x200, 0x101, 0x100] (by decide)).2.2⟩

end StatefulCompression
